import Mathlib

/-!
Verification of the airline route network program (flight_network_main.py).

The program builds an undirected networkx graph from airport and route
records and answers queries over it.  We embed the graph as an explicit
structure: an ordered association list of nodes (IATA code with attributes,
insertion ordered, unique keys as in a Python dict) and an ordered list of
edges with no duplicate unordered pairs (as maintained by nx.Graph.add_edge).

networkx semantics that the embedding reproduces:
  - add_node on an existing key keeps its position and overwrites attributes;
  - add_edge is a no-op when the unordered pair is already present;
  - G.neighbors(c) lists each adjacent node once (a self-loop contributes the
    node itself once) and raises NetworkXError when c is not a node;
  - G.degree(c) is the adjacency count plus one more when a self-loop is
    present (networkx counts self-loops twice);
  - G.nodes[c] raises KeyError when c is not a node;
  - nx.shortest_path does an unweighted BFS, returns [src] when src = dst,
    raises NetworkXNoPath when the endpoints are disconnected and
    NodeNotFound when an endpoint is missing.
Python exceptions are modelled as Except.error / distinguished outcome
constructors; print output is modelled by returning the printed value.
-/

/-- One row of airports.dat, restricted to the fields the program reads. -/
structure AirportRecord where
  iata : String
  name : String
  city : String
  country : String
  lat : Float
  lon : Float

/-- One row of routes.dat, restricted to the fields the program reads. -/
structure RouteRecord where
  src : String
  dst : String
  stops : Int

/-- The node attributes stored by build_graph via G.add_node. -/
structure AirportAttrs where
  name : String
  city : String
  country : String
  lat : Float
  lon : Float

/-- The embedded nx.Graph: insertion-ordered nodes with attributes and an
edge list holding each unordered pair at most once. -/
structure Graph where
  nodes : List (String × AirportAttrs)
  edges : List (String × String)

/-- Membership test `c in G` of networkx. -/
def nodeMemB (g : Graph) (c : String) : Bool :=
  g.nodes.any (fun p => p.1 == c)

/-- Attribute lookup `G.nodes[c]`, None modelling a KeyError. -/
def lookupAttrs (g : Graph) (c : String) : Option AirportAttrs :=
  (g.nodes.find? (fun p => p.1 == c)).map (fun p => p.2)

/-- G.add_node: overwrite attributes in place for an existing key, append a
fresh node otherwise (Python dicts keep insertion order on update). -/
def add_node (g : Graph) (c : String) (a : AirportAttrs) : Graph :=
  if nodeMemB g c then
    { g with nodes := g.nodes.map (fun p => if p.1 == c then (c, a) else p) }
  else
    { g with nodes := g.nodes ++ [(c, a)] }

/-- Undirected edge membership: the pair is stored in either orientation. -/
def edgeMemB (g : Graph) (a b : String) : Bool :=
  g.edges.any (fun e => (e.1 == a && e.2 == b) || (e.1 == b && e.2 == a))

/-- G.add_edge restricted to the call sites of build_graph, where the guard
`src in G and dst in G` guarantees both endpoints are already nodes, so only
the edge list changes; an already present unordered pair is kept once. -/
def add_edge (g : Graph) (a b : String) : Graph :=
  if edgeMemB g a b then g else { g with edges := g.edges ++ [(a, b)] }

/-- The attributes build_graph passes to G.add_node for a record. -/
def attrsOf (r : AirportRecord) : AirportAttrs :=
  { name := r.name, city := r.city, country := r.country, lat := r.lat, lon := r.lon }

/-- The guard `if code and code != r"\N"` of build_graph: for a string code,
Python truthiness is non-emptiness. -/
def validIata (c : String) : Bool :=
  c != "" && c != "\\N"

/-- One iteration of the airport loop of build_graph. -/
def nodeStep (g : Graph) (row : AirportRecord) : Graph :=
  if validIata row.iata then add_node g row.iata (attrsOf row) else g

/-- One iteration of the route loop of build_graph:
`if src in G and dst in G and row["Stops"] == 0: G.add_edge(src, dst)`. -/
def edgeStep (g : Graph) (row : RouteRecord) : Graph :=
  if nodeMemB g row.src && nodeMemB g row.dst && row.stops == 0 then
    add_edge g row.src row.dst
  else g

/-- build_graph: all airport records first, then all route records. -/
def build_graph (airports : List AirportRecord) (routes : List RouteRecord) : Graph :=
  routes.foldl edgeStep (airports.foldl nodeStep { nodes := [], edges := [] })

/-- The adjacency list G.neighbors(c) reads: every edge incident to c
contributes the opposite endpoint once; a self-loop contributes c once. -/
def neighborsList (g : Graph) (c : String) : List String :=
  g.edges.filterMap (fun e =>
    if e.1 == c then some e.2 else if e.2 == c then some e.1 else none)

/-- G.degree(c) of networkx: the adjacency count, plus one more when a
self-loop is present (networkx counts a self-loop twice). -/
def degree (g : Graph) (c : String) : Nat :=
  (neighborsList g c).length + (if (neighborsList g c).contains c then 1 else 0)

/-- The iterable G.degree: (node, degree) pairs in node insertion order. -/
def degreeView (g : Graph) : List (String × Nat) :=
  g.nodes.map (fun p => (p.1, degree g p.1))

/-- Stable insertion into a sorted list: x goes in front of the first y it
relates to, so elements already in the list that tie with x stay behind it,
matching the stability of Python sorted. -/
def insertSorted {α : Type} (r : α → α → Prop) [DecidableRel r] (x : α) :
    List α → List α
  | [] => [x]
  | y :: ys => if r x y then x :: y :: ys else y :: insertSorted r x ys

/-- Stable insertion sort, modelling Python sorted with the given order. -/
def sortWith {α : Type} (r : α → α → Prop) [DecidableRel r] (l : List α) : List α :=
  l.foldr (insertSorted r) []

/-- The order of sorted(G.degree, key=lambda x: x[1], reverse=True):
non-increasing degree. -/
def hubLe (a b : String × Nat) : Prop := b.2 ≤ a.2

instance : DecidableRel hubLe :=
  fun a b => inferInstanceAs (Decidable (b.2 ≤ a.2))

/-- Python list slicing l[:n], including negative n: l[:-k] drops the last k
elements (clamped at the empty list). -/
def pySliceTo {α : Type} (n : Int) (l : List α) : List α :=
  if 0 ≤ n then l.take n.toNat else l.take (l.length - (-n).toNat)

/-- show_top_hubs: sorted(G.degree, key=lambda x: x[1], reverse=True)[:top_n],
returning the printed (code, count) pairs. -/
def show_top_hubs (g : Graph) (top_n : Int) : List (String × Nat) :=
  pySliceTo top_n (sortWith hubLe (degreeView g))

/-- The Python exceptions the query functions can let escape. -/
inductive PyExc where
  | networkXError
  | keyError
deriving DecidableEq

/-- show_neighbors: sorted(G.neighbors(code)); G.neighbors raises
NetworkXError when code is not a node, and nothing catches it. -/
def show_neighbors (g : Graph) (code : String) : Except PyExc (List String) :=
  if nodeMemB g code then
    Except.ok (sortWith (fun a b : String => a ≤ b) (neighborsList g code))
  else
    Except.error PyExc.networkXError

/-- The record show_stats prints. -/
structure Stats where
  name : String
  city : String
  country : String
  lat : Float
  lon : Float
  degree : Nat

/-- show_stats: G.nodes[code] raises KeyError when code is not a node, and
nothing catches it; otherwise the attributes and G.degree(code) are printed. -/
def show_stats (g : Graph) (code : String) : Except PyExc Stats :=
  match lookupAttrs g code with
  | some a =>
      Except.ok { name := a.name, city := a.city, country := a.country,
                  lat := a.lat, lon := a.lon, degree := degree g code }
  | none => Except.error PyExc.keyError

/-- validate_iata: returns the membership test `code in G` as an ordinary
boolean (printing an error message on False). -/
def validate_iata (code : String) (g : Graph) : Bool :=
  nodeMemB g code

/-- Fuel-bounded breadth-first search over paths stored head-first: the queue
holds reversed paths, visited holds every node ever enqueued. -/
def bfsAux (g : Graph) (dst : String) :
    Nat → List (List String) → List String → Option (List String)
  | 0, _, _ => none
  | _ + 1, [], _ => none
  | fuel + 1, p :: queue, visited =>
    match p with
    | [] => bfsAux g dst fuel queue visited
    | c :: _ =>
      if c == dst then some p.reverse
      else
        let ns := (neighborsList g c).filter (fun b => !(visited.contains b))
        bfsAux g dst fuel (queue ++ ns.map (fun b => b :: p)) (visited ++ ns)

/-- nx.shortest_path on an unweighted graph with both endpoints present:
a BFS from src; none models the NetworkXNoPath exception.  Each node is
enqueued at most once, so nodes+1 iterations of fuel always suffice. -/
def nxShortestPath (g : Graph) (src dst : String) : Option (List String) :=
  bfsAux g dst (g.nodes.length + 1) [[src]] [src]

/-- What find_shortest_path does: prints the joined path, or the message
"No path found ..." on a caught NetworkXNoPath, or lets NodeNotFound escape
when an endpoint is not a node (only NetworkXNoPath is caught). -/
inductive PathOutcome where
  | printed (path : List String)
  | noPath
  | nodeNotFound
deriving DecidableEq

/-- find_shortest_path: nx.shortest_path inside try/except NetworkXNoPath. -/
def find_shortest_path (g : Graph) (src dst : String) : PathOutcome :=
  if nodeMemB g src && nodeMemB g dst then
    match nxShortestPath g src dst with
    | some p => PathOutcome.printed p
    | none => PathOutcome.noPath
  else PathOutcome.nodeNotFound

/-- Connectivity in the embedded graph, generated by its undirected edges. -/
inductive Reachable (g : Graph) : String → String → Prop where
  | refl (a : String) : Reachable g a a
  | tail {a b c : String} : Reachable g a b → edgeMemB g b c = true → Reachable g a c

/-- Two stored edges describe different unordered pairs of endpoints. -/
def NoDupEdge (e1 e2 : String × String) : Prop :=
  ¬ ((e1.1 = e2.1 ∧ e1.2 = e2.2) ∨ (e1.1 = e2.2 ∧ e1.2 = e2.1))

/-- State-passing read of `code in G`, returning the graph it leaves behind. -/
def exists_node_st (g : Graph) (code : String) : Bool × Graph :=
  (nodeMemB g code, g)

/-- State-passing validate_iata. -/
def validate_iata_st (code : String) (g : Graph) : Bool × Graph :=
  let r := exists_node_st g code
  (r.1, r.2)

/-- State-passing read of nx.shortest_path. -/
def nx_shortest_path_st (g : Graph) (src dst : String) : Option (List String) × Graph :=
  (nxShortestPath g src dst, g)

/-- State-passing find_shortest_path, threading the graph through each read. -/
def find_shortest_path_st (g : Graph) (src dst : String) : PathOutcome × Graph :=
  let s := exists_node_st g src
  let d := exists_node_st s.2 dst
  if s.1 && d.1 then
    let r := nx_shortest_path_st d.2 src dst
    match r.1 with
    | some p => (PathOutcome.printed p, r.2)
    | none => (PathOutcome.noPath, r.2)
  else (PathOutcome.nodeNotFound, d.2)

/-- State-passing read of the G.degree view. -/
def degree_view_st (g : Graph) : List (String × Nat) × Graph :=
  (degreeView g, g)

/-- State-passing show_top_hubs. -/
def show_top_hubs_st (g : Graph) (top_n : Int) : List (String × Nat) × Graph :=
  let dv := degree_view_st g
  (pySliceTo top_n (sortWith hubLe dv.1), dv.2)

/-- State-passing read of G.neighbors. -/
def adjacency_st (g : Graph) (code : String) : Except PyExc (List String) × Graph :=
  (if nodeMemB g code then Except.ok (neighborsList g code)
   else Except.error PyExc.networkXError, g)

/-- State-passing show_neighbors. -/
def show_neighbors_st (g : Graph) (code : String) : Except PyExc (List String) × Graph :=
  let a := adjacency_st g code
  match a.1 with
  | Except.ok l => (Except.ok (sortWith (fun x y : String => x ≤ y) l), a.2)
  | Except.error e => (Except.error e, a.2)

/-- State-passing read of G.nodes[code]. -/
def node_data_st (g : Graph) (code : String) : Option AirportAttrs × Graph :=
  (lookupAttrs g code, g)

/-- State-passing read of G.degree(code). -/
def degree_st (g : Graph) (code : String) : Nat × Graph :=
  (degree g code, g)

/-- State-passing show_stats, threading the graph through each read. -/
def show_stats_st (g : Graph) (code : String) : Except PyExc Stats × Graph :=
  let d := node_data_st g code
  match d.1 with
  | some a =>
      let c := degree_st d.2 code
      (Except.ok { name := a.name, city := a.city, country := a.country,
                   lat := a.lat, lon := a.lon, degree := c.1 }, c.2)
  | none => (Except.error PyExc.keyError, d.2)

lemma mem_insertSorted {α : Type} (r : α → α → Prop) [DecidableRel r] (x a : α)
    (l : List α) : a ∈ insertSorted r x l ↔ a = x ∨ a ∈ l := by
  induction l with
  | nil => simp [insertSorted]
  | cons y ys ih =>
    by_cases h : r x y
    · simp [insertSorted, if_pos h, List.mem_cons]
    · simp only [insertSorted, if_neg h, List.mem_cons, ih]
      tauto

lemma length_insertSorted {α : Type} (r : α → α → Prop) [DecidableRel r] (x : α)
    (l : List α) : (insertSorted r x l).length = l.length + 1 := by
  induction l with
  | nil => simp [insertSorted]
  | cons y ys ih =>
    by_cases h : r x y
    · simp [insertSorted, if_pos h]
    · simp [insertSorted, if_neg h, ih]

lemma pairwise_insertSorted {α : Type} (r : α → α → Prop) [DecidableRel r]
    (htot : ∀ a b, ¬ r a b → r b a) (htrans : ∀ a b c, r a b → r b c → r a c)
    (x : α) (l : List α) (hl : l.Pairwise r) : (insertSorted r x l).Pairwise r := by
  induction l with
  | nil => simp [insertSorted]
  | cons y ys ih =>
    rcases List.pairwise_cons.mp hl with ⟨hy, hys⟩
    by_cases h : r x y
    · simp only [insertSorted, if_pos h]
      refine List.pairwise_cons.mpr ⟨?_, hl⟩
      intro z hz
      rcases List.mem_cons.mp hz with heq | hz'
      · subst heq; exact h
      · exact htrans x y z h (hy z hz')
    · simp only [insertSorted, if_neg h]
      refine List.pairwise_cons.mpr ⟨?_, ih hys⟩
      intro z hz
      rcases (mem_insertSorted r x z ys).mp hz with heq | hz'
      · subst heq; exact htot z y h
      · exact hy z hz'

lemma pairwise_sortWith {α : Type} (r : α → α → Prop) [DecidableRel r]
    (htot : ∀ a b, ¬ r a b → r b a) (htrans : ∀ a b c, r a b → r b c → r a c)
    (l : List α) : (sortWith r l).Pairwise r := by
  induction l with
  | nil => simp [sortWith]
  | cons y ys ih =>
    simpa [sortWith] using pairwise_insertSorted r htot htrans y _ ih

lemma length_sortWith {α : Type} (r : α → α → Prop) [DecidableRel r] (l : List α) :
    (sortWith r l).length = l.length := by
  induction l with
  | nil => rfl
  | cons y ys ih =>
    simp [sortWith] at ih ⊢
    rw [length_insertSorted, ih]

lemma mem_sortWith {α : Type} (r : α → α → Prop) [DecidableRel r] (a : α)
    (l : List α) : a ∈ sortWith r l ↔ a ∈ l := by
  induction l with
  | nil => simp [sortWith]
  | cons y ys ih =>
    simp only [sortWith, List.foldr_cons] at ih ⊢
    rw [mem_insertSorted, ih, List.mem_cons]

lemma find?_append {α : Type} (p : α → Bool) (l m : List α) :
    (l ++ m).find? p = (l.find? p).or (m.find? p) := by
  induction l with
  | nil => simp
  | cons a l ih =>
    by_cases h : p a = true
    · simp [List.find?_cons, h]
    · simp only [Bool.not_eq_true] at h
      simp [List.find?_cons, h, ih]

lemma find?_ext {α : Type} (p q : α → Bool) (l : List α) (h : ∀ a, p a = q a) :
    l.find? p = l.find? q := by
  have hpq : p = q := funext h
  rw [hpq]

lemma beq_comm_str (a b : String) : (a == b) = (b == a) := by
  rcases eq_or_ne a b with rfl | h
  · rfl
  · rw [beq_eq_false_iff_ne.mpr h, beq_eq_false_iff_ne.mpr h.symm]

lemma edges_add_node (g : Graph) (c : String) (a : AirportAttrs) :
    (add_node g c a).edges = g.edges := by
  unfold add_node; split <;> rfl

lemma edges_nodeStep (g : Graph) (r : AirportRecord) :
    (nodeStep g r).edges = g.edges := by
  unfold nodeStep; split
  · exact edges_add_node ..
  · rfl

lemma edges_nodesPhase (airports : List AirportRecord) (g : Graph) :
    (airports.foldl nodeStep g).edges = g.edges := by
  induction airports generalizing g with
  | nil => rfl
  | cons r rest ih => rw [List.foldl_cons, ih, edges_nodeStep]

lemma any_key_map (c x : String) (a : AirportAttrs) (l : List (String × AirportAttrs)) :
    (l.map (fun p => if p.1 == c then (c, a) else p)).any (fun p => p.1 == x)
      = l.any (fun p => p.1 == x) := by
  induction l with
  | nil => rfl
  | cons p rest ih =>
    rw [List.map_cons, List.any_cons, List.any_cons]
    cases h : (p.1 == c) with
    | true =>
      have hc : p.1 = c := beq_iff_eq.mp h
      rw [if_pos rfl, ih, hc]
    | false =>
      rw [if_neg (by simp), ih]

lemma nodeMemB_add_node (g : Graph) (c x : String) (a : AirportAttrs) :
    nodeMemB (add_node g c a) x = (nodeMemB g x || c == x) := by
  unfold add_node
  split
  · rename_i hmem
    unfold nodeMemB
    simp only []
    rw [any_key_map]
    cases hcx : (c == x) with
    | false => simp
    | true =>
      have hx : c = x := beq_iff_eq.mp hcx
      subst hx
      unfold nodeMemB at hmem
      simp [hmem]
  · unfold nodeMemB
    simp [List.any_append]

lemma nodeMemB_nodesPhase (airports : List AirportRecord) (g : Graph) (x : String) :
    nodeMemB (airports.foldl nodeStep g) x
      = (nodeMemB g x || airports.any (fun r => validIata r.iata && r.iata == x)) := by
  induction airports generalizing g with
  | nil => simp
  | cons r rest ih =>
    rw [List.foldl_cons, ih, List.any_cons]
    unfold nodeStep
    cases hv : validIata r.iata with
    | true =>
      rw [if_pos rfl, nodeMemB_add_node]
      simp [Bool.or_assoc]
    | false =>
      simp

lemma find?_cons_true {α : Type} (pred : α → Bool) (a : α) (l : List α)
    (h : pred a = true) : (a :: l).find? pred = some a :=
  List.find?_cons_of_pos l h

lemma find?_cons_false {α : Type} (pred : α → Bool) (a : α) (l : List α)
    (h : pred a = false) : (a :: l).find? pred = l.find? pred :=
  List.find?_cons_of_neg l (by simp [h])

lemma find?_key_map_ne (c x : String) (a : AirportAttrs)
    (l : List (String × AirportAttrs)) (hne : (c == x) = false) :
    (l.map (fun p => if p.1 == c then (c, a) else p)).find? (fun p => p.1 == x)
      = l.find? (fun p => p.1 == x) := by
  induction l with
  | nil => rfl
  | cons p rest ih =>
    rw [List.map_cons]
    by_cases hb : (p.1 == c) = true
    · have hc : p.1 = c := beq_iff_eq.mp hb
      rw [if_pos hb]
      rw [find?_cons_false (fun q => q.1 == x) (c, a) _ hne]
      rw [find?_cons_false (fun q => q.1 == x) p rest
            (by show (p.1 == x) = false; rw [hc]; exact hne)]
      exact ih
    · rw [if_neg hb]
      cases hx : (p.1 == x) with
      | true =>
        rw [find?_cons_true (fun q => q.1 == x) p _ hx,
            find?_cons_true (fun q => q.1 == x) p rest hx]
      | false =>
        rw [find?_cons_false (fun q => q.1 == x) p _ hx,
            find?_cons_false (fun q => q.1 == x) p rest hx]
        exact ih

lemma find?_key_map_eq (c : String) (a : AirportAttrs)
    (l : List (String × AirportAttrs)) (hmem : l.any (fun p => p.1 == c) = true) :
    (l.map (fun p => if p.1 == c then (c, a) else p)).find? (fun p => p.1 == c)
      = some (c, a) := by
  induction l with
  | nil => simp at hmem
  | cons p rest ih =>
    rw [List.map_cons]
    by_cases hb : (p.1 == c) = true
    · rw [if_pos hb]
      rw [find?_cons_true (fun q => q.1 == c) (c, a) _ (by simp)]
    · rw [if_neg hb]
      have hrest : rest.any (fun p => p.1 == c) = true := by
        rw [List.any_cons] at hmem
        rcases Bool.or_eq_true .. |>.mp hmem with h1 | h1
        · exact absurd h1 hb
        · exact h1
      rw [find?_cons_false (fun q => q.1 == c) p _ (Bool.not_eq_true _ |>.mp hb)]
      exact ih hrest

lemma nodeMemB_false_lookup_none (g : Graph) (c : String)
    (h : nodeMemB g c = false) : lookupAttrs g c = none := by
  unfold nodeMemB at h
  unfold lookupAttrs
  rw [List.find?_eq_none.mpr (List.any_eq_false.mp h)]
  rfl

lemma lookupAttrs_add_node (g : Graph) (c x : String) (a : AirportAttrs) :
    lookupAttrs (add_node g c a) x =
      if (x == c) = true then some a else lookupAttrs g x := by
  unfold add_node
  split
  · rename_i hmem
    unfold lookupAttrs
    cases hxc : (x == c) with
    | true =>
      have hx : x = c := beq_iff_eq.mp hxc
      subst hx
      simp only [if_pos rfl]
      rw [find?_key_map_eq x a g.nodes hmem]
      rfl
    | false =>
      have hcx : (c == x) = false := by rw [beq_comm_str]; exact hxc
      simp only [if_neg (by simp : ¬ (false = true))]
      rw [find?_key_map_ne c x a g.nodes hcx]
  · rename_i hmem
    rw [Bool.not_eq_true] at hmem
    unfold lookupAttrs
    simp only []
    rw [find?_append]
    cases hxc : (x == c) with
    | true =>
      have hx : x = c := beq_iff_eq.mp hxc
      subst hx
      rw [List.find?_eq_none.mpr (List.any_eq_false.mp hmem)]
      simp [List.find?_cons]
    | false =>
      have hcx : (c == x) = false := by rw [beq_comm_str]; exact hxc
      simp only [if_neg (by simp : ¬ (false = true))]
      have : List.find? (fun p => p.1 == x) [(c, a)] = none := by
        simp [List.find?_cons, hcx]
      rw [this]
      cases g.nodes.find? (fun p => p.1 == x) <;> rfl

lemma lookupAttrs_nodeStep (g : Graph) (r : AirportRecord) (x : String) :
    lookupAttrs (nodeStep g r) x =
      if (validIata r.iata && (r.iata == x)) = true then some (attrsOf r)
      else lookupAttrs g x := by
  unfold nodeStep
  cases hv : validIata r.iata with
  | false => simp
  | true =>
    rw [if_pos rfl, lookupAttrs_add_node]
    rw [beq_comm_str x r.iata]
    simp

lemma lookupAttrs_nodesPhase (airports : List AirportRecord) (g : Graph) (x : String) :
    lookupAttrs (airports.foldl nodeStep g) x =
      match airports.reverse.find? (fun r => validIata r.iata && r.iata == x) with
      | some r => some (attrsOf r)
      | none => lookupAttrs g x := by
  induction airports generalizing g with
  | nil => rfl
  | cons r rest ih =>
    rw [List.foldl_cons, ih, List.reverse_cons, find?_append]
    cases hrest : rest.reverse.find? (fun r => validIata r.iata && r.iata == x) with
    | some r' => rfl
    | none =>
      show lookupAttrs (nodeStep g r) x =
        match List.find? (fun r => validIata r.iata && r.iata == x) [r] with
        | some r => some (attrsOf r)
        | none => lookupAttrs g x
      rw [lookupAttrs_nodeStep, List.find?_cons]
      cases hP : (validIata r.iata && (r.iata == x)) with
      | true => rfl
      | false => rfl

lemma nodes_add_edge (g : Graph) (a b : String) : (add_edge g a b).nodes = g.nodes := by
  unfold add_edge; split <;> rfl

lemma nodes_edgeStep (g : Graph) (r : RouteRecord) : (edgeStep g r).nodes = g.nodes := by
  unfold edgeStep; split
  · exact nodes_add_edge ..
  · rfl

lemma nodes_edgesPhase (routes : List RouteRecord) (g : Graph) :
    (routes.foldl edgeStep g).nodes = g.nodes := by
  induction routes generalizing g with
  | nil => rfl
  | cons r rest ih => rw [List.foldl_cons, ih, nodes_edgeStep]

lemma nodeMemB_congr (g g' : Graph) (h : g.nodes = g'.nodes) (x : String) :
    nodeMemB g x = nodeMemB g' x := by
  unfold nodeMemB; rw [h]

lemma lookupAttrs_congr (g g' : Graph) (h : g.nodes = g'.nodes) (x : String) :
    lookupAttrs g x = lookupAttrs g' x := by
  unfold lookupAttrs; rw [h]

lemma edgeMemB_congr (g g' : Graph) (h : g.edges = g'.edges) (a b : String) :
    edgeMemB g a b = edgeMemB g' a b := by
  unfold edgeMemB; rw [h]

lemma neighborsList_congr (g g' : Graph) (h : g.edges = g'.edges) (c : String) :
    neighborsList g c = neighborsList g' c := by
  unfold neighborsList; rw [h]

lemma mem_edges_edgesPhase (routes : List RouteRecord) (g : Graph) (e : String × String)
    (h : e ∈ (routes.foldl edgeStep g).edges) :
    e ∈ g.edges ∨ ∃ r ∈ routes, nodeMemB g r.src = true ∧ nodeMemB g r.dst = true ∧
      r.stops = 0 ∧ e = (r.src, r.dst) := by
  induction routes generalizing g with
  | nil => exact Or.inl h
  | cons r rest ih =>
    rw [List.foldl_cons] at h
    rcases ih (edgeStep g r) h with h1 | ⟨r', hr', hsrc, hdst, hstops, he⟩
    · by_cases hguard : (nodeMemB g r.src && nodeMemB g r.dst && r.stops == 0) = true
      · unfold edgeStep at h1
        rw [if_pos hguard] at h1
        by_cases hdup : edgeMemB g r.src r.dst = true
        · unfold add_edge at h1
          rw [if_pos hdup] at h1
          exact Or.inl h1
        · unfold add_edge at h1
          rw [if_neg hdup] at h1
          rcases List.mem_append.mp h1 with h2 | h2
          · exact Or.inl h2
          · have he : e = (r.src, r.dst) := by simpa using h2
            rw [Bool.and_eq_true, Bool.and_eq_true] at hguard
            obtain ⟨⟨hs, hd⟩, hst⟩ := hguard
            exact Or.inr ⟨r, List.mem_cons_self r rest, hs, hd, beq_iff_eq.mp hst, he⟩
      · unfold edgeStep at h1
        rw [if_neg hguard] at h1
        exact Or.inl h1
    · rw [nodeMemB_congr (edgeStep g r) g (nodes_edgeStep g r)] at hsrc hdst
      exact Or.inr ⟨r', List.mem_cons_of_mem r hr', hsrc, hdst, hstops, he⟩

lemma pairwise_add_edge (g : Graph) (a b : String)
    (h : g.edges.Pairwise NoDupEdge) : (add_edge g a b).edges.Pairwise NoDupEdge := by
  unfold add_edge
  split
  · exact h
  · rename_i hne
    rw [Bool.not_eq_true] at hne
    unfold edgeMemB at hne
    refine List.pairwise_append.mpr ⟨h, List.pairwise_singleton _ _, ?_⟩
    intro e he y hy
    have hyab : y = (a, b) := by simpa using hy
    subst hyab
    have h2 := List.any_eq_false.mp hne e he
    intro hcon
    apply h2
    rcases hcon with ⟨h3, h4⟩ | ⟨h3, h4⟩
    · simp [h3, h4]
    · simp [h3, h4]

lemma pairwise_edgeStep (g : Graph) (r : RouteRecord)
    (h : g.edges.Pairwise NoDupEdge) : (edgeStep g r).edges.Pairwise NoDupEdge := by
  unfold edgeStep
  split
  · exact pairwise_add_edge _ _ _ h
  · exact h

lemma pairwise_edgesPhase (routes : List RouteRecord) (g : Graph)
    (h : g.edges.Pairwise NoDupEdge) :
    (routes.foldl edgeStep g).edges.Pairwise NoDupEdge := by
  induction routes generalizing g with
  | nil => exact h
  | cons r rest ih => exact ih _ (pairwise_edgeStep _ _ h)

lemma any_edge_symm (a b : String) (l : List (String × String)) :
    l.any (fun e => (e.1 == a && e.2 == b) || (e.1 == b && e.2 == a))
      = l.any (fun e => (e.1 == b && e.2 == a) || (e.1 == a && e.2 == b)) := by
  induction l with
  | nil => rfl
  | cons e rest ih =>
    rw [List.any_cons, List.any_cons, ih, Bool.or_comm (e.1 == a && e.2 == b)]

lemma edgeMemB_symm (g : Graph) (a b : String) : edgeMemB g a b = edgeMemB g b a := by
  unfold edgeMemB
  exact any_edge_symm a b g.edges

lemma mem_neighborsList_edge (g : Graph) (c b : String)
    (h : b ∈ neighborsList g c) : edgeMemB g c b = true := by
  unfold neighborsList at h
  rcases List.mem_filterMap.mp h with ⟨e, he, hfe⟩
  unfold edgeMemB
  rw [List.any_eq_true]
  refine ⟨e, he, ?_⟩
  by_cases h1 : (e.1 == c) = true
  · rw [if_pos h1] at hfe
    have hb : e.2 = b := by simpa using hfe
    have hc : e.1 = c := beq_iff_eq.mp h1
    simp [hc, hb]
  · rw [if_neg h1] at hfe
    by_cases h2 : (e.2 == c) = true
    · rw [if_pos h2] at hfe
      have hb : e.1 = b := by simpa using hfe
      have hc : e.2 = c := beq_iff_eq.mp h2
      simp [hc, hb]
    · rw [if_neg h2] at hfe
      exact absurd hfe (by simp)

lemma edge_mem_neighborsList (g : Graph) (c b : String)
    (h : edgeMemB g c b = true) : b ∈ neighborsList g c := by
  unfold edgeMemB at h
  rcases List.any_eq_true.mp h with ⟨e, he, hmatch⟩
  unfold neighborsList
  rw [List.mem_filterMap]
  refine ⟨e, he, ?_⟩
  rw [Bool.or_eq_true, Bool.and_eq_true, Bool.and_eq_true] at hmatch
  rcases hmatch with ⟨h1, h2⟩ | ⟨h1, h2⟩
  · have hc : e.1 = c := beq_iff_eq.mp h1
    have hb : e.2 = b := beq_iff_eq.mp h2
    simp [hc, hb]
  · have hb : e.1 = b := beq_iff_eq.mp h1
    have hc : e.2 = c := beq_iff_eq.mp h2
    by_cases hbc : b = c
    · subst hbc
      simp [hb, hc]
    · simp [hb, hc, beq_iff_eq, hbc]

lemma contains_self_neighborsList (g : Graph) (c : String) :
    (neighborsList g c).contains c = edgeMemB g c c := by
  rw [Bool.eq_iff_iff]
  constructor
  · intro h
    exact mem_neighborsList_edge g c c (List.elem_iff.mp h)
  · intro h
    exact List.elem_iff.mpr (edge_mem_neighborsList g c c h)

lemma reachable_no_edges (g : Graph) (a b : String) (he : g.edges = [])
    (h : Reachable g a b) : a = b := by
  induction h with
  | refl => rfl
  | tail hr hedge ih =>
    unfold edgeMemB at hedge
    rw [he] at hedge
    exact absurd hedge (by simp)

lemma bfsAux_sound (g : Graph) (src dst : String) (fuel : Nat) :
    ∀ (queue : List (List String)) (visited : List String) (out : List String),
      (∀ p ∈ queue, ∃ c t, p = c :: t ∧ Reachable g src c) →
      bfsAux g dst fuel queue visited = some out → Reachable g src dst := by
  induction fuel with
  | zero =>
    intro queue visited out _ hrun
    exact absurd hrun (by simp [bfsAux])
  | succ fuel ih =>
    intro queue visited out hinv hrun
    match queue with
    | [] => exact absurd hrun (by simp [bfsAux])
    | p :: rest =>
      match hp : p with
      | [] =>
        rw [bfsAux] at hrun
        exact ih rest visited out (fun q hq => hinv q (List.mem_cons_of_mem _ hq)) hrun
      | c :: t =>
        rw [bfsAux] at hrun
        by_cases hcd : (c == dst) = true
        · rcases hinv (c :: t) (List.mem_cons_self _ _) with ⟨c', t', heq, hreach⟩
          cases heq
          have hd : c = dst := beq_iff_eq.mp hcd
          rw [hd] at hreach
          exact hreach
        · rw [if_neg hcd] at hrun
          refine ih _ _ out ?_ hrun
          intro q hq
          rcases List.mem_append.mp hq with hq1 | hq2
          · exact hinv q (List.mem_cons_of_mem _ hq1)
          · rcases List.mem_map.mp hq2 with ⟨b, hb, hqb⟩
            rcases hinv (c :: t) (List.mem_cons_self _ _) with ⟨c', t', heq, hreach⟩
            cases heq
            have hbn : b ∈ neighborsList g c := List.mem_of_mem_filter hb
            have hedge : edgeMemB g c b = true := mem_neighborsList_edge g c b hbn
            exact ⟨b, c :: t, hqb.symm ▸ rfl, Reachable.tail hreach hedge⟩

lemma build_mem (airports : List AirportRecord) (routes : List RouteRecord) (c : String) :
    nodeMemB (build_graph airports routes) c
      = airports.any (fun r => validIata r.iata && r.iata == c) := by
  unfold build_graph
  rw [nodeMemB_congr _ _ (nodes_edgesPhase routes _) c]
  rw [nodeMemB_nodesPhase]
  simp [nodeMemB]

lemma build_mem_iff (airports : List AirportRecord) (routes : List RouteRecord)
    (c : String) :
    nodeMemB (build_graph airports routes) c = true ↔
      (c ≠ "" ∧ c ≠ "\\N" ∧ ∃ r ∈ airports, r.iata = c) := by
  rw [build_mem, List.any_eq_true]
  constructor
  · rintro ⟨r, hr, hcond⟩
    rw [Bool.and_eq_true] at hcond
    obtain ⟨hv, heq⟩ := hcond
    have heq' : r.iata = c := beq_iff_eq.mp heq
    unfold validIata at hv
    rw [Bool.and_eq_true, bne_iff_ne, bne_iff_ne] at hv
    subst heq'
    exact ⟨hv.1, hv.2, r, hr, rfl⟩
  · rintro ⟨h1, h2, r, hr, hiata⟩
    refine ⟨r, hr, ?_⟩
    rw [Bool.and_eq_true]
    refine ⟨?_, beq_iff_eq.mpr hiata⟩
    unfold validIata
    rw [Bool.and_eq_true, bne_iff_ne, bne_iff_ne, hiata]
    exact ⟨h1, h2⟩

lemma valid_guard_ext (c : String) (h1 : c ≠ "") (h2 : c ≠ "\\N") :
    ∀ r : AirportRecord, (validIata r.iata && (r.iata == c)) = (r.iata == c) := by
  intro r
  cases hrc : (r.iata == c) with
  | false => simp
  | true =>
    have hc : r.iata = c := beq_iff_eq.mp hrc
    rw [Bool.and_true]
    unfold validIata
    rw [hc, Bool.and_eq_true, bne_iff_ne, bne_iff_ne]
    exact ⟨h1, h2⟩

lemma build_lookup (airports : List AirportRecord) (routes : List RouteRecord)
    (c : String) (h1 : c ≠ "") (h2 : c ≠ "\\N") (rec : AirportRecord)
    (hfind : airports.reverse.find? (fun r => r.iata == c) = some rec) :
    lookupAttrs (build_graph airports routes) c = some (attrsOf rec) := by
  unfold build_graph
  rw [lookupAttrs_congr _ _ (nodes_edgesPhase routes _) c]
  rw [lookupAttrs_nodesPhase]
  rw [find?_ext _ _ _ (valid_guard_ext c h1 h2)]
  rw [hfind]

lemma build_edges_no_routes (airports : List AirportRecord) :
    (build_graph airports []).edges = [] := by
  unfold build_graph
  rw [List.foldl_nil]
  exact edges_nodesPhase airports _

lemma build_edges_append_one (airports : List AirportRecord)
    (routes : List RouteRecord) (r : RouteRecord) :
    build_graph airports (routes ++ [r]) = edgeStep (build_graph airports routes) r := by
  unfold build_graph
  rw [List.foldl_append, List.foldl_cons, List.foldl_nil]

/-- C1: in a built Network an edge between codes a and b exists only if both
are nodes and some route record with exactly zero stops joins these two
endpoints in one orientation or the other; edge membership is symmetric
(order-independent), and the stored edge list never holds a duplicate
unordered pair, so repeated records create no parallel edge. -/
theorem spec_C1 (airports : List AirportRecord) (routes : List RouteRecord)
    (a b : String) (h : edgeMemB (build_graph airports routes) a b = true) :
    nodeMemB (build_graph airports routes) a = true ∧
    nodeMemB (build_graph airports routes) b = true ∧
    (∃ r ∈ routes, r.stops = 0 ∧
      ((r.src = a ∧ r.dst = b) ∨ (r.src = b ∧ r.dst = a))) ∧
    edgeMemB (build_graph airports routes) b a = true ∧
    (build_graph airports routes).edges.Pairwise NoDupEdge := by
  have hsymm : edgeMemB (build_graph airports routes) b a = true := by
    rw [edgeMemB_symm]
    exact h
  have hG : build_graph airports routes
      = routes.foldl edgeStep (airports.foldl nodeStep { nodes := [], edges := [] }) := rfl
  set g0 := airports.foldl nodeStep { nodes := [], edges := [] } with hg0def
  have hg0e : g0.edges = [] := edges_nodesPhase airports _
  have hpair : (build_graph airports routes).edges.Pairwise NoDupEdge := by
    rw [hG]
    exact pairwise_edgesPhase routes g0 (by rw [hg0e]; exact List.Pairwise.nil)
  rw [hG] at h
  unfold edgeMemB at h
  rcases List.any_eq_true.mp h with ⟨e, he, hmatch⟩
  rcases mem_edges_edgesPhase routes g0 e he with h0 | ⟨r, hr, hs, hd, hst, hepair⟩
  · rw [hg0e] at h0
    exact absurd h0 (List.not_mem_nil e)
  · subst hepair
    rw [Bool.or_eq_true, Bool.and_eq_true, Bool.and_eq_true] at hmatch
    have hmm : (r.src = a ∧ r.dst = b) ∨ (r.src = b ∧ r.dst = a) := by
      rcases hmatch with ⟨x1, x2⟩ | ⟨x1, x2⟩
      · exact Or.inl ⟨beq_iff_eq.mp x1, beq_iff_eq.mp x2⟩
      · exact Or.inr ⟨beq_iff_eq.mp x1, beq_iff_eq.mp x2⟩
    have hmema : nodeMemB (build_graph airports routes) a = true := by
      rw [hG, nodeMemB_congr _ _ (nodes_edgesPhase routes g0) a]
      rcases hmm with ⟨h1, _⟩ | ⟨_, h2⟩
      · rw [← h1]; exact hs
      · rw [← h2]; exact hd
    have hmemb : nodeMemB (build_graph airports routes) b = true := by
      rw [hG, nodeMemB_congr _ _ (nodes_edgesPhase routes g0) b]
      rcases hmm with ⟨_, h2⟩ | ⟨h1, _⟩
      · rw [← h2]; exact hd
      · rw [← h1]; exact hs
    exact ⟨hmema, hmemb, ⟨r, hr, hst, hmm⟩, hsymm, hpair⟩

/-- C1 witness: a concrete two-airport network with one zero-stop route has
the edge, and the theorem applies to it. -/
theorem spec_C1_witness :
    edgeMemB (build_graph
        [⟨"AAA", "a", "a", "a", 0.0, 0.0⟩, ⟨"BBB", "b", "b", "b", 0.0, 0.0⟩]
        [⟨"AAA", "BBB", 0⟩]) "AAA" "BBB" = true ∧
    (nodeMemB (build_graph
        [⟨"AAA", "a", "a", "a", 0.0, 0.0⟩, ⟨"BBB", "b", "b", "b", 0.0, 0.0⟩]
        [⟨"AAA", "BBB", 0⟩]) "AAA" = true ∧
     nodeMemB (build_graph
        [⟨"AAA", "a", "a", "a", 0.0, 0.0⟩, ⟨"BBB", "b", "b", "b", 0.0, 0.0⟩]
        [⟨"AAA", "BBB", 0⟩]) "BBB" = true) := by
  have h : edgeMemB (build_graph
      [⟨"AAA", "a", "a", "a", 0.0, 0.0⟩, ⟨"BBB", "b", "b", "b", 0.0, 0.0⟩]
      [⟨"AAA", "BBB", 0⟩]) "AAA" "BBB" = true := rfl
  have hc := spec_C1 _ _ _ _ h
  exact ⟨h, hc.1, hc.2.1⟩

/-- C2: a code is a node of the built Network exactly when it is non-empty,
differs from the sentinel, and appears as the IATA value of some airport
record; and when several records carry the same valid code, the stored
attributes are those of the last such record in input order. -/
theorem spec_C2 (airports : List AirportRecord) (routes : List RouteRecord)
    (c : String) :
    (nodeMemB (build_graph airports routes) c = true ↔
      (c ≠ "" ∧ c ≠ "\\N" ∧ ∃ r ∈ airports, r.iata = c)) ∧
    (∀ rec : AirportRecord, c ≠ "" → c ≠ "\\N" →
      airports.reverse.find? (fun r => r.iata == c) = some rec →
      lookupAttrs (build_graph airports routes) c = some (attrsOf rec)) := by
  refine ⟨build_mem_iff airports routes c, ?_⟩
  intro rec h1 h2 hfind
  exact build_lookup airports routes c h1 h2 rec hfind

/-- C2 witness: two records share the code AAA; the node exists and carries
the attributes of the later record. -/
theorem spec_C2_witness :
    (nodeMemB (build_graph
        [⟨"AAA", "old", "oc", "ol", 0.0, 0.0⟩, ⟨"AAA", "new", "nc", "nl", 1.0, 2.0⟩]
        []) "AAA" = true ↔
      ("AAA" ≠ "" ∧ "AAA" ≠ "\\N" ∧ ∃ r ∈
        [(⟨"AAA", "old", "oc", "ol", 0.0, 0.0⟩ : AirportRecord),
         ⟨"AAA", "new", "nc", "nl", 1.0, 2.0⟩], r.iata = "AAA")) ∧
    lookupAttrs (build_graph
        [⟨"AAA", "old", "oc", "ol", 0.0, 0.0⟩, ⟨"AAA", "new", "nc", "nl", 1.0, 2.0⟩]
        []) "AAA" = some (attrsOf ⟨"AAA", "new", "nc", "nl", 1.0, 2.0⟩) := by
  have hc := spec_C2
    [⟨"AAA", "old", "oc", "ol", 0.0, 0.0⟩, ⟨"AAA", "new", "nc", "nl", 1.0, 2.0⟩]
    [] "AAA"
  refine ⟨hc.1, ?_⟩
  exact hc.2 ⟨"AAA", "new", "nc", "nl", 1.0, 2.0⟩ (by decide) (by decide) rfl

/-- C10: build accepts an airport record exactly when its code is non-empty
and differs from the two-character sentinel: any such code becomes a node,
with no further format check, and a code absent from the node set can only
have been empty, the sentinel, or absent from the records. -/
theorem spec_C10 (airports : List AirportRecord) (routes : List RouteRecord)
    (r : AirportRecord) (hr : r ∈ airports) (h1 : r.iata ≠ "") (h2 : r.iata ≠ "\\N") :
    nodeMemB (build_graph airports routes) r.iata = true ∧
    (∀ c : String, nodeMemB (build_graph airports routes) c = true →
      c ≠ "" ∧ c ≠ "\\N" ∧ ∃ q ∈ airports, q.iata = c) := by
  constructor
  · exact (build_mem_iff airports routes r.iata).mpr ⟨h1, h2, r, hr, rfl⟩
  · intro c hc
    exact (build_mem_iff airports routes c).mp hc

/-- C10 witness: the code "x1" is neither three characters long, uppercase,
nor alphabetic, yet it is accepted and becomes a node. -/
theorem spec_C10_witness :
    nodeMemB (build_graph [⟨"x1", "odd", "oc", "ol", 0.0, 0.0⟩] []) "x1" = true := by
  have hc := spec_C10 [⟨"x1", "odd", "oc", "ol", 0.0, 0.0⟩] []
    ⟨"x1", "odd", "oc", "ol", 0.0, 0.0⟩ (by simp) (by decide) (by decide)
  exact hc.1

/-- C3 counterexample: on the empty Network, show_neighbors and show_stats
applied to the unknown code LAX raise (the modelled NetworkXError and
KeyError escape) instead of returning an ordinary not-found value, refuting
the claim that no query operation throws for a not-found condition. -/
theorem spec_C3_counterexample :
    show_neighbors (build_graph [] []) "LAX" = Except.error PyExc.networkXError ∧
    show_stats (build_graph [] []) "LAX" = Except.error PyExc.keyError :=
  ⟨rfl, rfl⟩

/-- C3 (amended): for a code that is not a node, the validation gate
validate_iata reports the condition as the ordinary value False, while the
query operations themselves raise when reached directly: show_neighbors
lets NetworkXError escape and show_stats lets KeyError escape; the shell
only calls them after validate_iata has returned True. -/
theorem spec_C3 (g : Graph) (code : String) (h : nodeMemB g code = false) :
    validate_iata code g = false ∧
    show_neighbors g code = Except.error PyExc.networkXError ∧
    show_stats g code = Except.error PyExc.keyError := by
  refine ⟨h, ?_, ?_⟩
  · simp [show_neighbors, h]
  · unfold show_stats
    rw [nodeMemB_false_lookup_none g code h]

/-- C3 witness: a concrete one-airport network and the unknown code ZZZ. -/
theorem spec_C3_witness :
    nodeMemB (build_graph [⟨"AAA", "a", "a", "a", 0.0, 0.0⟩] []) "ZZZ" = false ∧
    validate_iata "ZZZ" (build_graph [⟨"AAA", "a", "a", "a", 0.0, 0.0⟩] []) = false := by
  have h : nodeMemB (build_graph [⟨"AAA", "a", "a", "a", 0.0, 0.0⟩] []) "ZZZ" = false := rfl
  exact ⟨h, (spec_C3 _ "ZZZ" h).1⟩

/-- C4: when both endpoints are nodes but no chain of edges connects them,
find_shortest_path reports the caught NetworkXNoPath outcome (the printed
"No path found" message), never a printed path (in particular not an empty
one) and never an escaping exception. -/
theorem spec_C4 (g : Graph) (src dst : String)
    (hs : nodeMemB g src = true) (hd : nodeMemB g dst = true)
    (hnr : ¬ Reachable g src dst) :
    find_shortest_path g src dst = PathOutcome.noPath := by
  unfold find_shortest_path
  rw [hs, hd]
  rw [if_pos (show (true && true) = true from rfl)]
  cases hp : nxShortestPath g src dst with
  | some p =>
    refine absurd (bfsAux_sound g src dst (g.nodes.length + 1) [[src]] [src] p ?_ hp) hnr
    intro q hq
    have hq1 : q = [src] := by simpa using hq
    exact ⟨src, [], hq1, Reachable.refl src⟩
  | none => rfl

/-- C4 witness: two isolated airports; the operation reports no path. -/
theorem spec_C4_witness :
    find_shortest_path (build_graph
      [⟨"AAA", "a", "a", "a", 0.0, 0.0⟩, ⟨"BBB", "b", "b", "b", 0.0, 0.0⟩] [])
      "AAA" "BBB" = PathOutcome.noPath := by
  refine spec_C4 _ _ _ rfl rfl ?_
  intro hr
  have h2 := reachable_no_edges _ _ _ rfl hr
  exact absurd h2 (by decide)

/-- C7: for an existing node X, find_shortest_path from X to X prints the
single-element path [X], matching the degenerate case of nx.shortest_path. -/
theorem spec_C7 (g : Graph) (X : String) (h : nodeMemB g X = true) :
    find_shortest_path g X X = PathOutcome.printed [X] := by
  unfold find_shortest_path
  rw [h]
  rw [if_pos (show (true && true) = true from rfl)]
  have hbfs : nxShortestPath g X X = some [X] := by
    unfold nxShortestPath
    rw [bfsAux]
    simp
  rw [hbfs]

/-- C7 witness: a concrete network and node. -/
theorem spec_C7_witness :
    find_shortest_path (build_graph [⟨"AAA", "a", "a", "a", 0.0, 0.0⟩] [])
      "AAA" "AAA" = PathOutcome.printed ["AAA"] :=
  spec_C7 _ "AAA" rfl

/-- C5 counterexample: on a two-node network, show_top_hubs with the
negative count -1 returns one pair rather than the empty sequence the claim
requires for every n ≤ 0: Python slicing [:-1] drops only the last entry. -/
theorem spec_C5_counterexample :
    (-1 : Int) ≤ 0 ∧
    show_top_hubs (build_graph
      [⟨"AAA", "a", "a", "a", 0.0, 0.0⟩, ⟨"BBB", "b", "b", "b", 0.0, 0.0⟩] [])
      (-1) = [("AAA", 0)] ∧
    show_top_hubs (build_graph
      [⟨"AAA", "a", "a", "a", 0.0, 0.0⟩, ⟨"BBB", "b", "b", "b", 0.0, 0.0⟩] [])
      (-1) ≠ ([] : List (String × Nat)) := by
  refine ⟨by decide, rfl, by decide⟩

/-- C5 (amended): show_top_hubs always returns pairs sorted by
non-increasing degree; for n ≥ 0 the length is exactly min n (node count);
for n < 0 Python slicing keeps all but the last -n entries (clamped at
zero), so the result is empty only when -n reaches the node count. -/
theorem spec_C5 (g : Graph) (n : Int) :
    (show_top_hubs g n).Pairwise hubLe ∧
    (0 ≤ n → (show_top_hubs g n).length = min n.toNat g.nodes.length) ∧
    (n < 0 → (show_top_hubs g n).length = g.nodes.length - (-n).toNat) := by
  have hsorted : (sortWith hubLe (degreeView g)).Pairwise hubLe :=
    pairwise_sortWith hubLe (fun a b hab => le_of_not_le hab)
      (fun a b c h1 h2 => le_trans h2 h1) _
  have hlen : (sortWith hubLe (degreeView g)).length = g.nodes.length := by
    rw [length_sortWith]
    unfold degreeView
    rw [List.length_map]
  refine ⟨?_, ?_, ?_⟩
  · unfold show_top_hubs pySliceTo
    split <;> exact List.Pairwise.sublist (List.take_sublist _ _) hsorted
  · intro hn
    unfold show_top_hubs pySliceTo
    rw [if_pos hn, List.length_take, hlen]
  · intro hn
    unfold show_top_hubs pySliceTo
    rw [if_neg (not_le.mpr hn), List.length_take, hlen]
    exact min_eq_left (Nat.sub_le _ _)

/-- C5 witness: the nonnegative branch at a concrete network and n = 1. -/
theorem spec_C5_witness :
    (0 : Int) ≤ 1 ∧
    (show_top_hubs (build_graph
      [⟨"AAA", "a", "a", "a", 0.0, 0.0⟩, ⟨"BBB", "b", "b", "b", 0.0, 0.0⟩] [])
      1).length = min (1 : Int).toNat (build_graph
      [⟨"AAA", "a", "a", "a", 0.0, 0.0⟩, ⟨"BBB", "b", "b", "b", 0.0, 0.0⟩] []).nodes.length := by
  refine ⟨by decide, ?_⟩
  exact (spec_C5 (build_graph
    [⟨"AAA", "a", "a", "a", 0.0, 0.0⟩, ⟨"BBB", "b", "b", "b", 0.0, 0.0⟩] []) 1).2.1
    (by decide)

/-- C6 counterexample: with a self-loop on AAA, show_neighbors lists AAA
once (length 1) but the networkx degree is 2, refuting length = degree. -/
theorem spec_C6_counterexample :
    show_neighbors (build_graph [⟨"AAA", "a", "a", "a", 0.0, 0.0⟩]
      [⟨"AAA", "AAA", 0⟩]) "AAA" = Except.ok ["AAA"] ∧
    degree (build_graph [⟨"AAA", "a", "a", "a", 0.0, 0.0⟩]
      [⟨"AAA", "AAA", 0⟩]) "AAA" = 2 ∧
    (["AAA"] : List String).length ≠ degree (build_graph
      [⟨"AAA", "a", "a", "a", 0.0, 0.0⟩] [⟨"AAA", "AAA", 0⟩]) "AAA" := by
  refine ⟨rfl, rfl, by decide⟩

/-- C6 (amended): for an existing node, show_neighbors returns an
ascending-sorted list holding exactly the directly connected codes; its
length equals the degree for nodes without a self-loop and is one less than
the degree when a self-loop is present, since networkx counts a self-loop
twice in the degree but lists the node once among its own neighbors. -/
theorem spec_C6 (airports : List AirportRecord) (routes : List RouteRecord)
    (code : String) (h : nodeMemB (build_graph airports routes) code = true) :
    ∃ l, show_neighbors (build_graph airports routes) code = Except.ok l ∧
      l.Pairwise (fun a b : String => a ≤ b) ∧
      (∀ b : String, b ∈ l ↔ edgeMemB (build_graph airports routes) code b = true) ∧
      degree (build_graph airports routes) code
        = l.length + (if edgeMemB (build_graph airports routes) code code then 1 else 0) := by
  refine ⟨sortWith (fun a b : String => a ≤ b)
    (neighborsList (build_graph airports routes) code), ?_, ?_, ?_, ?_⟩
  · unfold show_neighbors
    rw [if_pos h]
  · exact pairwise_sortWith (fun a b : String => a ≤ b)
      (fun a b hab => le_of_not_le hab)
      (fun a b c h1 h2 => le_trans h1 h2) _
  · intro b
    rw [mem_sortWith]
    exact ⟨mem_neighborsList_edge _ _ _, edge_mem_neighborsList _ _ _⟩
  · unfold degree
    rw [length_sortWith, contains_self_neighborsList]

/-- C6 witness: the hub BBB of a concrete three-airport line network. -/
theorem spec_C6_witness :
    ∃ l, show_neighbors (build_graph
      [⟨"AAA", "a", "a", "a", 0.0, 0.0⟩, ⟨"BBB", "b", "b", "b", 0.0, 0.0⟩,
       ⟨"CCC", "c", "c", "c", 0.0, 0.0⟩]
      [⟨"AAA", "BBB", 0⟩, ⟨"BBB", "CCC", 0⟩]) "BBB" = Except.ok l ∧
      l.Pairwise (fun a b : String => a ≤ b) := by
  obtain ⟨l, h1, h2, _, _⟩ := spec_C6
    [⟨"AAA", "a", "a", "a", 0.0, 0.0⟩, ⟨"BBB", "b", "b", "b", 0.0, 0.0⟩,
     ⟨"CCC", "c", "c", "c", 0.0, 0.0⟩]
    [⟨"AAA", "BBB", 0⟩, ⟨"BBB", "CCC", 0⟩] "BBB" rfl
  exact ⟨l, h1, h2⟩

/-- C8 counterexample: one airport AAA with a zero-stop route AAA to AAA:
the self-loop is created and the reported degree rises from 0 to 2, not by
the exactly one the claim states. -/
theorem spec_C8_counterexample :
    edgeMemB (build_graph [⟨"AAA", "a", "a", "a", 0.0, 0.0⟩]
      [⟨"AAA", "AAA", 0⟩]) "AAA" "AAA" = true ∧
    degree (build_graph [⟨"AAA", "a", "a", "a", 0.0, 0.0⟩]
      [⟨"AAA", "AAA", 0⟩]) "AAA" = 2 ∧
    degree (build_graph [⟨"AAA", "a", "a", "a", 0.0, 0.0⟩] []) "AAA" = 0 ∧
    (2 : Nat) ≠ 0 + 1 := by
  refine ⟨rfl, rfl, rfl, by decide⟩

/-- C8 (amended): a route record with equal endpoints and zero stops on an
existing node is not filtered: appending it to the route list adds a
self-loop on that node, and the self-loop raises the networkx degree that
show_top_hubs and show_stats report by exactly two, not one. -/
theorem spec_C8 (airports : List AirportRecord) (routes : List RouteRecord)
    (c : String)
    (hmem : nodeMemB (build_graph airports routes) c = true)
    (hno : edgeMemB (build_graph airports routes) c c = false) :
    edgeMemB (build_graph airports (routes ++ [⟨c, c, 0⟩])) c c = true ∧
    degree (build_graph airports (routes ++ [⟨c, c, 0⟩])) c
      = degree (build_graph airports routes) c + 2 := by
  have hstep : build_graph airports (routes ++ [⟨c, c, 0⟩])
      = edgeStep (build_graph airports routes) ⟨c, c, 0⟩ :=
    build_edges_append_one airports routes ⟨c, c, 0⟩
  have hguard : (nodeMemB (build_graph airports routes) c
      && nodeMemB (build_graph airports routes) c && ((0 : Int) == 0)) = true := by
    rw [hmem]
    rfl
  have hedges : (build_graph airports (routes ++ [⟨c, c, 0⟩])).edges
      = (build_graph airports routes).edges ++ [(c, c)] := by
    rw [hstep]
    unfold edgeStep
    rw [if_pos hguard]
    unfold add_edge
    rw [if_neg (by simp [hno])]
  have hnl : neighborsList (build_graph airports (routes ++ [⟨c, c, 0⟩])) c
      = neighborsList (build_graph airports routes) c ++ [c] := by
    unfold neighborsList
    rw [hedges, List.filterMap_append]
    simp
  constructor
  · unfold edgeMemB
    rw [hedges, List.any_append]
    simp
  · unfold degree
    rw [hnl]
    have hc0 : (neighborsList (build_graph airports routes) c).contains c = false := by
      rw [contains_self_neighborsList]
      exact hno
    have hc1 : ((neighborsList (build_graph airports routes) c) ++ [c]).contains c
        = true := by
      rw [List.elem_iff]
      simp
    rw [hc0, hc1, List.length_append]
    simp

/-- C8 witness: one airport and one self-loop route appended to no routes. -/
theorem spec_C8_witness :
    edgeMemB (build_graph [⟨"AAA", "a", "a", "a", 0.0, 0.0⟩]
      [⟨"AAA", "AAA", 0⟩]) "AAA" "AAA" = true ∧
    degree (build_graph [⟨"AAA", "a", "a", "a", 0.0, 0.0⟩]
      [⟨"AAA", "AAA", 0⟩]) "AAA"
      = degree (build_graph [⟨"AAA", "a", "a", "a", 0.0, 0.0⟩] []) "AAA" + 2 :=
  spec_C8 [⟨"AAA", "a", "a", "a", 0.0, 0.0⟩] [] "AAA" rfl rfl

/-- C9: no query operation mutates the Network: every state-passing query
returns the graph it received, so the node set, the edge set and every
node's stored attributes are unchanged by existence checks, shortest path,
top hubs, neighbor listing and stats. -/
theorem spec_C9 (g : Graph) (src dst code code2 code3 : String) (n : Int) :
    (find_shortest_path_st g src dst).2 = g ∧
    (show_top_hubs_st g n).2 = g ∧
    (show_neighbors_st g code).2 = g ∧
    (show_stats_st g code2).2 = g ∧
    (validate_iata_st code3 g).2 = g := by
  refine ⟨?_, rfl, ?_, ?_, rfl⟩
  · unfold find_shortest_path_st exists_node_st nx_shortest_path_st
    by_cases h : (nodeMemB g src && nodeMemB g dst) = true
    · rcases hnx : nxShortestPath g src dst with _ | p <;> simp [h, hnx]
    · simp [h]
  · unfold show_neighbors_st adjacency_st
    by_cases h : nodeMemB g code = true
    · simp [h]
    · simp [h]
  · unfold show_stats_st node_data_st degree_st
    rcases hl : lookupAttrs g code2 with _ | a <;> simp [hl]
